import Mathlib

/-!
Verification of the autopost worker/manager subsystem (`handler/autopost.py`).

Python strings are modelled as `List Char`; Python `int` as `Int` (with
floor-division `Int.fdiv` and non-negative-for-positive-modulus `Int.emod`
matching Python `//` and `%`); Python `float` timestamps as `ℚ`.
Stateful registries / pools are modelled as explicit state passed through
pure step functions, with operation sequences folded over a list of ops.
-/

abbrev Str := List Char

/-- ASCII whitespace recognised by Python `str.strip()`. -/
def pyIsSpace (c : Char) : Bool :=
  (c = ' ') || (c = '\t') || (c = '\n') || (c = '\r') || (c = '\x0b') || (c = '\x0c')

/-- Python `str.strip()`: drop whitespace from both ends. -/
def pyStrip (s : Str) : Str :=
  ((s.dropWhile pyIsSpace).reverse.dropWhile pyIsSpace).reverse

/-- Python `str.lower()` (ASCII fragment, which is all this code base uses). -/
def pyLower (s : Str) : Str := s.map Char.toLower

def isDigitCh (c : Char) : Bool := ('0' ≤ c) && (c ≤ '9')

def digitVal (c : Char) : Nat := c.toNat - ('0').toNat

def digitsToNat (ds : Str) : Nat := ds.foldl (fun a c => a * 10 + digitVal c) 0

/-- Sign/digit scan of Python `int(s)` (applied after whitespace stripping). -/
def pyIntChars? : Str → Option Int
  | [] => none
  | c :: ds =>
    if c = '-' then
      if (!ds.isEmpty) && ds.all isDigitCh then some (-(digitsToNat ds : Int)) else none
    else if c = '+' then
      if (!ds.isEmpty) && ds.all isDigitCh then some ((digitsToNat ds : Int)) else none
    else
      if (c :: ds).all isDigitCh then some ((digitsToNat (c :: ds) : Int)) else none

/-- Python `int(s)` on a decimal string: optional surrounding whitespace,
optional sign, then decimal digits (digit-grouping underscores are not
modelled; none of the call sites produce them).  `none` models `ValueError`. -/
def pyInt? (s : Str) : Option Int := pyIntChars? (pyStrip s)

/-- Body of `parse_duration_to_seconds` after the `strip().lower()` step. -/
def parseDurationCore (s : Str) : Int :=
  if s.length < 2 then 0
  else if s.getLastD ' ' ≠ 's' ∧ s.getLastD ' ' ≠ 'm' ∧ s.getLastD ' ' ≠ 'h' then 0
  else
    match pyInt? s.dropLast with
    | none => 0
    | some v =>
      if s.getLastD ' ' = 's' then v
      else if s.getLastD ' ' = 'm' then v * 60
      else v * 3600

/-- Embeds `parse_duration_to_seconds` from `handler/autopost.py`. -/
def parse_duration_to_seconds (s0 : Str) : Int :=
  parseDurationCore (pyLower (pyStrip s0))

def digitChar (n : Nat) : Char := Char.ofNat (('0').toNat + n)

/-- Decimal representation of a natural number (the digits an f-string prints). -/
def natRepr (n : Nat) : Str :=
  if _h : n < 10 then [digitChar n]
  else natRepr (n / 10) ++ [digitChar (n % 10)]
termination_by n
decreasing_by
  exact Nat.div_lt_self (by omega) (by omega)

/-- Decimal representation of a Python int. -/
def intRepr (n : Int) : Str :=
  if n < 0 then '-' :: natRepr n.natAbs else natRepr n.toNat

/-- Embeds `format_seconds_to_duration` from `handler/autopost.py`. -/
def format_seconds_to_duration (seconds : Int) : Str :=
  if seconds = 0 then ['0', 's']
  else if seconds % 3600 = 0 then intRepr (Int.fdiv seconds 3600) ++ ['h']
  else if seconds % 60 = 0 then intRepr (Int.fdiv seconds 60) ++ ['m']
  else intRepr seconds ++ ['s']

/-! ### Per-credential global backoff (`AutoPostManager`) -/

/-- Embeds `AutoPostManager.get_token_global_backoff`: `float(map.get(token) or 0.0)`. -/
def get_token_global_backoff (tbl : Str → Option ℚ) (token : Str) : ℚ :=
  (tbl token).getD 0

/-- Embeds `AutoPostManager.set_token_global_backoff`: stores `until_monotonic` only
when it is strictly greater than the currently stored value (the `except`
branch is unreachable: `float` on a float cannot raise). -/
def set_token_global_backoff (tbl : Str → Option ℚ) (token : Str) (until_monotonic : ℚ) :
    Str → Option ℚ :=
  let cur := (tbl token).getD 0
  if cur < until_monotonic then fun t => if t = token then some until_monotonic else tbl t
  else tbl

/-! ### Worker registry (`AutoPostManager.clients`) -/

/-- The Manager's `clients` dict, as an association list from Task Key to a
worker identifier; fresh workers are numbered by a counter. -/
abbrev Registry := List (Str × Nat)

def regFind : Registry → Str → Option Nat
  | [], _ => none
  | (k', c) :: t, k => if k' = k then some c else regFind t k

/-- Embeds `AutoPostManager._add_task_async`: no-op when the key is falsy or already
registered; otherwise constructs a worker, registers it, and starts it.
`startOk = false` models `client.start()` raising, in which case the entry is
popped again (the worker id is still consumed, as the object was built). -/
def add_task_async (st : Registry × Nat) (key : Option Str) (startOk : Bool) : Registry × Nat :=
  match key with
  | none => st
  | some k =>
    if (regFind st.1 k).isSome then st
    else if startOk then (st.1 ++ [(k, st.2)], st.2 + 1)
    else (st.1, st.2 + 1)

/-- Embeds `AutoPostManager._remove_task_async`: pops the key (then stops the worker). -/
def remove_task_async (reg : Registry) (k : Str) : Registry :=
  reg.filter (fun e => decide (e.1 ≠ k))

inductive RegOp where
  | add (key : Option Str) (startOk : Bool)
  | remove (key : Str)

def regStep (st : Registry × Nat) : RegOp → Registry × Nat
  | RegOp.add key ok => add_task_async st key ok
  | RegOp.remove k => (remove_task_async st.1 k, st.2)

def regRun (ops : List RegOp) : Registry × Nat := ops.foldl regStep ([], 0)

/-! ### Resource pool (`AutoPostManager._session_pool`) -/

/-- Embeds `_SharedHTTPSession`: the proxy-session pool entry.  Sessions are numbered;
the connector created and closed in lockstep with each session is represented
by the same entry.  `refCount` is an `Int` so that "never negative" is a real
statement. -/
structure SharedHTTPSession where
  refCount : Int
  session : Option Nat
  deriving DecidableEq

instance : Inhabited SharedHTTPSession := ⟨⟨0, none⟩⟩

structure PoolState where
  pool : List (Str × SharedHTTPSession)
  nextSession : Nat
  closedSessions : List Nat
  deriving DecidableEq

/-- Embeds `AutoPostManager._session_key_for_proxy`: `f"proxy_{proxy_idx}"`. -/
def sessionKeyForProxy (idx : Nat) : Str := ("proxy_").toList ++ natRepr idx

def poolFind : List (Str × SharedHTTPSession) → Str → Option SharedHTTPSession
  | [], _ => none
  | (k', e) :: t, k => if k' = k then some e else poolFind t k

def poolSet (pool : List (Str × SharedHTTPSession)) (k : Str) (e : SharedHTTPSession) :
    List (Str × SharedHTTPSession) :=
  pool.map (fun p => if p.1 = k then (k, e) else p)

/-- Embeds `AutoPostManager.acquire_proxy_session`: get-or-create the entry under the
pool lock, then under the entry lock recreate the session if absent or closed
and increment the reference count.  Returns the new state, the route key and
the session id handed out. -/
def acquire_proxy_session (st : PoolState) (idx : Nat) : PoolState × Str × Nat :=
  let key := sessionKeyForProxy idx
  let pool1 := if (poolFind st.pool key).isSome then st.pool
               else st.pool ++ [(key, ⟨0, none⟩)]
  let shared := (poolFind pool1 key).getD ⟨0, none⟩
  let sessionLive := match shared.session with
    | some s => decide (s ∉ st.closedSessions)
    | none => false
  if sessionLive then
    (⟨poolSet pool1 key ⟨shared.refCount + 1, shared.session⟩, st.nextSession, st.closedSessions⟩,
      key, shared.session.getD 0)
  else
    (⟨poolSet pool1 key ⟨shared.refCount + 1, some st.nextSession⟩, st.nextSession + 1,
      st.closedSessions⟩, key, st.nextSession)

/-- Embeds `AutoPostManager.release_proxy_session`: unknown key is a no-op; otherwise
decrement the count if positive, and when it is zero close the session (if
any) and pop the entry. -/
def release_proxy_session (st : PoolState) (key : Str) : PoolState :=
  match poolFind st.pool key with
  | none => st
  | some shared =>
    let r1 := if 0 < shared.refCount then shared.refCount - 1 else shared.refCount
    if r1 = 0 then
      { pool := st.pool.filter (fun p => decide (p.1 ≠ key)),
        nextSession := st.nextSession,
        closedSessions := st.closedSessions ++ (match shared.session with
          | some s => [s]
          | none => []) }
    else
      { pool := poolSet st.pool key ⟨r1, shared.session⟩,
        nextSession := st.nextSession,
        closedSessions := st.closedSessions }

inductive PoolOp where
  | acquire (idx : Nat)
  | release (key : Str)

def poolStep (st : PoolState) : PoolOp → PoolState
  | PoolOp.acquire idx => (acquire_proxy_session st idx).1
  | PoolOp.release key => release_proxy_session st key

def poolInit : PoolState := ⟨[], 0, []⟩

def poolRun (ops : List PoolOp) : PoolState := ops.foldl poolStep poolInit

/-- Reachable-state invariant of the session pool: every entry holds a live
session (created on first acquire, so its ref count is at least 1), sessions
are pairwise distinct, numbered below the counter and not yet closed, and the
close log is duplicate-free and below the counter. -/
def PoolInv (st : PoolState) : Prop :=
  (∀ p ∈ st.pool, 1 ≤ p.2.refCount ∧
    ∃ s, p.2.session = some s ∧ s < st.nextSession ∧ s ∉ st.closedSessions) ∧
  (st.pool.map Prod.fst).Nodup ∧
  (st.pool.filterMap (fun p => p.2.session)).Nodup ∧
  st.closedSessions.Nodup ∧
  (∀ s ∈ st.closedSessions, s < st.nextSession)

/-! ### Posting-loop scheduling (`AutoPostClient._posting_loop`) -/

/-- Channel configuration fields consumed by the posting loop. -/
structure ChannelCfg where
  delay : Option Str
  delay_random : Option Str

/-- Embeds `parse_duration_to_seconds(self.channel.get('delay', '2m')) or 120`. -/
def baseDelay (ch : ChannelCfg) : Int :=
  let v := parse_duration_to_seconds (ch.delay.getD (("2m").toList))
  if v = 0 then 120 else v

/-- Python `str.split(',')` (keeps empty pieces). -/
def splitComma : Str → List Str
  | [] => [[]]
  | c :: t =>
    if c = ',' then [] :: splitComma t
    else
      match splitComma t with
      | [] => [[c]]
      | h :: r => (c :: h) :: r

/-- Embeds `[parse_duration_to_seconds(p) for p in rd.split(',') if p.strip()]`
filtered to the positive candidates. -/
def jitterParts (rd : Str) : List Int :=
  (((splitComma rd).filter (fun p => decide (pyStrip p ≠ []))).map
      parse_duration_to_seconds).filter (fun v => decide (0 < v))

/-- The delay applied after a successful send: base delay plus an optional
jitter candidate chosen by `random.choice` (modelled by the oracle `pick`,
reduced mod the candidate count), floored at 1. -/
def okDelay (ch : ChannelCfg) (pick : Nat) : Int :=
  let base := baseDelay ch
  let rd := pyStrip (ch.delay_random.getD [])
  let finalDelay :=
    if rd ≠ [] ∧ pyLower rd ≠ ("none").toList then
      let parts := jitterParts rd
      if parts.isEmpty then base else base + parts.getD (pick % parts.length) 0
    else base
  max 1 finalDelay

inductive SendResult where
  | ok
  | rate_limited
  | fatal
  | error
  deriving DecidableEq

structure LoopState where
  consecutiveFailures : Nat
  deriving DecidableEq

/-- One pass of the result-handling branch of `AutoPostClient._posting_loop`:
returns the new failure-streak state, whether `_reset_session` ran, and the
delay applied before the next attempt (`none` when the loop breaks). -/
def loopStep (ch : ChannelCfg) (pick : Nat) (retryAfter : ℚ) (s : LoopState) :
    SendResult → LoopState × Bool × Option ℚ
  | SendResult.ok => (⟨0⟩, false, some ((okDelay ch pick : ℚ)))
  | SendResult.rate_limited => (⟨0⟩, false, some (max 1 (if retryAfter = 0 then 1 else retryAfter)))
  | SendResult.fatal => (s, false, none)
  | SendResult.error =>
    let n := s.consecutiveFailures + 1
    let d : Int := max 30 (baseDelay ch)
    if 5 ≤ n then (⟨0⟩, true, some ((d : ℚ)))
    else (⟨n⟩, false, some ((d : ℚ)))

/-- Fold `loopStep` over a sequence of send results, counting session resets. -/
def runLoop (ch : ChannelCfg) (pick : Nat) (ra : ℚ) :
    LoopState → List SendResult → LoopState × Nat
  | s, [] => (s, 0)
  | s, r :: rs =>
    let out := loopStep ch pick ra s r
    let rest := runLoop ch pick ra out.1 rs
    (rest.1, (if out.2.1 then 1 else 0) + rest.2)

/-! ### Send classification and fatal handlers (`AutoPostClient._send_post`) -/

/-- The value assigned to `result` by `AutoPostClient._send_post` for each HTTP
status; the final branch is the one that also invokes
`_handle_unexpected_error` — note it assigns `'error'`, not `'fatal'`. -/
def send_post_result (status : Nat) : SendResult :=
  if status = 200 ∨ status = 201 ∨ status = 204 then SendResult.ok
  else if status = 429 then SendResult.rate_limited
  else if status = 401 then SendResult.fatal
  else if status = 403 then SendResult.fatal
  else if 500 ≤ status then SendResult.error
  else SendResult.error

structure UnexpectedOutcome where
  fatalHandled : Bool
  notice : Option Str
  deriving DecidableEq

/-- Embeds `detail[:197] + "..."` when the detail exceeds 200 characters. -/
def truncated_detail (detail : Str) : Str :=
  if 200 < detail.length then detail.take 197 ++ ("...").toList else detail

/-- Embeds `AutoPostClient._handle_unexpected_error`.  `dataDetail` abstracts
`data.get('message') or data.get('code') or json.dumps(data)` when the
response body parsed as a dict (`none` when there was no dict); a falsy
detail falls back to the stripped response text, then to the fixed message. -/
def client_handle_unexpected_error (fatalHandled : Bool) (status : Nat)
    (dataDetail : Option Str) (text : Str) : UnexpectedOutcome :=
  if fatalHandled then ⟨true, none⟩
  else if 500 ≤ status then ⟨false, none⟩
  else if status = 400 ∨ status = 404 ∨ status = 405 then
    let detail0 := (dataDetail.getD [])
    let detail1 := if detail0 = [] then pyStrip text else detail0
    let detail := truncated_detail detail1
    ⟨true, some (if detail = [] then ("Unexpected error from Discord API").toList else detail)⟩
  else ⟨false, none⟩

/-! ### Storage records and the Manager's fatal handlers -/

structure TargetChannel where
  channel_id : Str
  is_active : Bool
  last_error : Option Str
  deriving DecidableEq

structure Account where
  user_id : Str
  is_active : Bool
  channels : List TargetChannel
  deriving DecidableEq

/-- db update of `AutoPostManager.handle_token_expired`: the first account with
a matching user id is deactivated together with all of its channels (`break`
after the first match). -/
def deactivate_account_all : List Account → Str → List Account
  | [], _ => []
  | acc :: t, accId =>
    if acc.user_id = accId then
      { acc with
        is_active := false
        channels := acc.channels.map (fun ch => { ch with is_active := false }) } :: t
    else acc :: deactivate_account_all t accId

/-- Inner loop of the target-deactivating db updates: the first channel with a
matching id is deactivated and its `last_error` set (`break` after it). -/
def deactivate_channel_first : List TargetChannel → Str → Str → List TargetChannel
  | [], _, _ => []
  | ch :: t, chId, err =>
    if ch.channel_id = chId then
      { ch with
        is_active := false
        last_error := some err } :: t
    else ch :: deactivate_channel_first t chId err

/-- db update of `AutoPostManager.handle_unexpected_error`: inside the first
account with a matching user id, deactivate the matching channel. -/
def deactivate_target_unexpected : List Account → Str → Str → Str → List Account
  | [], _, _, _ => []
  | acc :: t, accId, chId, label =>
    if acc.user_id = accId then
      { acc with channels := deactivate_channel_first acc.channels chId label } :: t
    else acc :: deactivate_target_unexpected t accId chId label

/-- Lookup mirroring the account/channel scan used by the db updates. -/
def findChannel (accs : List Account) (accId chId : Str) : Option TargetChannel :=
  (accs.find? (fun a => decide (a.user_id = accId))).bind
    (fun acc => acc.channels.find? (fun ch => decide (ch.channel_id = chId)))

def findAccount (accs : List Account) (accId : Str) : Option Account :=
  accs.find? (fun a => decide (a.user_id = accId))

structure TokenExpiredOut where
  clients : Registry
  accounts : List Account
  notices : Nat
  deriving DecidableEq

/-- Embeds `AutoPostManager.handle_token_expired`: remove the worker for the task key,
deactivate the account and all its channels, and send one `token_expired`
notification (delivery is fire-and-forget; we count emissions). -/
def handle_token_expired (clients : Registry) (accounts : List Account)
    (key : Option Str) (accId : Str) : TokenExpiredOut :=
  let clients1 := match key with
    | some k => remove_task_async clients k
    | none => clients
  ⟨clients1, deactivate_account_all accounts accId, 1⟩

/-- Embeds `AutoPostClient._handle_token_expired`: the per-worker `_fatal_handled`
guard; when clear it sets the flag and invokes the manager handler. -/
def client_handle_token_expired (fatalHandled : Bool) (clients : Registry)
    (accounts : List Account) (key : Option Str) (accId : Str) :
    Bool × TokenExpiredOut :=
  if fatalHandled then (true, ⟨clients, accounts, 0⟩)
  else (true, handle_token_expired clients accounts key accId)

/-- Scenario: two workers sharing one credential (distinct Task Keys), each
with its own clear `_fatal_handled` guard, both receive a 401 and run the
token-expired path one after the other; returns the total number of
`token_expired` notifications emitted. -/
def two_worker_401_notices (clients : Registry) (accounts : List Account)
    (k1 k2 : Str) (accId : Str) : Nat :=
  let r1 := client_handle_token_expired false clients accounts (some k1) accId
  let r2 := client_handle_token_expired false r1.2.clients r1.2.accounts (some k2) accId
  r1.2.notices + r2.2.notices

structure UnexpectedOut where
  clients : Registry
  accounts : List Account
  notices : List (Nat × Str)
  deriving DecidableEq

/-- Embeds `AutoPostManager.handle_unexpected_error`: remove the worker, deactivate
the target channel (with an `unexpected_error_<ts>` marker, passed in as
`label`), and emit one notification carrying the status code and detail. -/
def handle_unexpected_error (clients : Registry) (accounts : List Account)
    (key : Option Str) (accId chId : Str) (label : Str)
    (errorCode : Nat) (errorMessage : Str) : UnexpectedOut :=
  let clients1 := match key with
    | some k => remove_task_async clients k
    | none => clients
  ⟨clients1, deactivate_target_unexpected accounts accId chId label,
    [(errorCode, errorMessage)]⟩

/-! ### Worker stop paths (`AutoPostClient.stop` / `force_close`) -/

inductive ClientEvent where
  | cancelBackground
  | cancelMainTask
  | cancelAllNowait
  | releaseSessions
  | closeDefaultSession
  | optimizeMemory
  | notifyManagerDone
  deriving DecidableEq, BEq

structure ClientFlags where
  running : Bool
  stopped : Bool
  deriving DecidableEq

/-- Embeds `AutoPostClient.stop`: early return when already stopped; otherwise flip
the flags, cancel background tasks and the posting task, close sessions and
reclaim memory.  The event alphabet includes `notifyManagerDone` so that
"reports completion to the Manager" is statable; no statement in the method
body emits it. -/
def client_stop (c : ClientFlags) : ClientFlags × List ClientEvent :=
  if c.stopped then (c, [])
  else (⟨false, true⟩,
    [ClientEvent.cancelBackground, ClientEvent.cancelMainTask, ClientEvent.releaseSessions,
     ClientEvent.closeDefaultSession, ClientEvent.optimizeMemory])

/-- Embeds `AutoPostClient.force_close`: unconditionally flips the flags, cancels all
tasks without awaiting, best-effort closes sessions and reclaims memory. -/
def force_close (_c : ClientFlags) : ClientFlags × List ClientEvent :=
  (⟨false, true⟩,
    [ClientEvent.cancelAllNowait, ClientEvent.releaseSessions,
     ClientEvent.closeDefaultSession, ClientEvent.optimizeMemory])

/-! ### Credential masking and diagnostics (`_mask_token`, Task Key logging) -/

/-- Embeds `_mask_token` from `handler/autopost.py`. -/
def mask_token (token : Option Str) : Str :=
  match token with
  | none => ("None").toList
  | some t =>
    if t = [] then ("None").toList
    else if t.length ≤ 8 then t.take 2 ++ ("***").toList ++ t.drop (t.length - 2)
    else t.take 4 ++ ("***").toList ++ t.drop (t.length - 4)

/-- Embeds `AutoPostTask.key`: `f"{token}_{channel_id}"` when both are truthy. -/
def task_key (token : Option Str) (channel_id : Option Str) : Option Str :=
  match token, channel_id with
  | some t, some c => if t ≠ [] ∧ c ≠ [] then some (t ++ '_' :: c) else none
  | _, _ => none

/-- Embeds `_describe_task`: the masked diagnostic context string. -/
def describe_task (userId accId chId : Str) (token : Option Str) : Str :=
  ("user=").toList ++ userId ++ (" account=").toList ++ accId ++
  (" channel=").toList ++ chId ++ (" token=").toList ++ mask_token token

/-- The message rendered by the `AutoPostManager._add_task_async` skip branch:
`"AutoPostManager.add_task skipped existing client key=%s (%s)" % (key, descr)`. -/
def add_task_skip_log (key : Str) (descr : Str) : Str :=
  ("AutoPostManager.add_task skipped existing client key=").toList ++ key ++
  (" (").toList ++ descr ++ (")").toList

theorem digitsToNat_append_one (xs : Str) (c : Char) :
    digitsToNat (xs ++ [c]) = 10 * digitsToNat xs + digitVal c := by
  simp [digitsToNat, List.foldl_append]
  ring

theorem digitChar_spec (d : Nat) (h : d < 10) :
    digitVal (digitChar d) = d ∧ isDigitCh (digitChar d) = true ∧
    (digitChar d).toLower = digitChar d ∧ pyIsSpace (digitChar d) = false ∧
    digitChar d ≠ '-' ∧ digitChar d ≠ '+' := by
  interval_cases d <;> exact ⟨by decide, by decide, by decide, by decide, by decide, by decide⟩

theorem natRepr_ne_nil (n : Nat) : natRepr n ≠ [] := by
  unfold natRepr
  split
  · simp
  · simp

theorem natRepr_all_digits (n : Nat) : (natRepr n).all isDigitCh = true := by
  induction n using Nat.strong_induction_on with
  | _ n ih =>
    unfold natRepr
    split
    · next h => simp [List.all_cons, (digitChar_spec n h).2.1]
    · next h =>
      rw [List.all_append]
      have h10 : n / 10 < n := Nat.div_lt_self (by omega) (by omega)
      simp [ih _ h10, List.all_cons, (digitChar_spec (n % 10) (Nat.mod_lt _ (by omega))).2.1]

theorem digitsToNat_natRepr (n : Nat) : digitsToNat (natRepr n) = n := by
  induction n using Nat.strong_induction_on with
  | _ n ih =>
    unfold natRepr
    split
    · next h =>
      simp [digitsToNat, (digitChar_spec n h).1]
    · next h =>
      have h10 : n / 10 < n := Nat.div_lt_self (by omega) (by omega)
      rw [digitsToNat_append_one, ih _ h10, (digitChar_spec (n % 10) (Nat.mod_lt _ (by omega))).1]
      omega

theorem natRepr_char_props (n : Nat) :
    ∀ c ∈ natRepr n, isDigitCh c = true ∧ pyIsSpace c = false ∧ c.toLower = c ∧
      ¬(c = '-') ∧ ¬(c = '+') := by
  induction n using Nat.strong_induction_on with
  | _ n ih =>
    intro c hc
    unfold natRepr at hc
    split at hc
    · next h =>
      simp only [List.mem_singleton] at hc
      subst hc
      have hs := digitChar_spec n h
      exact ⟨hs.2.1, hs.2.2.2.1, hs.2.2.1, hs.2.2.2.2.1, hs.2.2.2.2.2⟩
    · next h =>
      rw [List.mem_append] at hc
      rcases hc with hc | hc
      · exact ih _ (Nat.div_lt_self (by omega) (by omega)) c hc
      · simp only [List.mem_singleton] at hc
        subst hc
        have hs := digitChar_spec (n % 10) (Nat.mod_lt _ (by omega))
        exact ⟨hs.2.1, hs.2.2.2.1, hs.2.2.1, hs.2.2.2.2.1, hs.2.2.2.2.2⟩

theorem dropWhile_pyIsSpace_eq_self (s : Str) (h : ∀ c ∈ s, pyIsSpace c = false) :
    s.dropWhile pyIsSpace = s := by
  cases s with
  | nil => rfl
  | cons a t => simp [List.dropWhile_cons, h a (by simp)]

theorem pyStrip_eq_self (s : Str) (h : ∀ c ∈ s, pyIsSpace c = false) : pyStrip s = s := by
  unfold pyStrip
  rw [dropWhile_pyIsSpace_eq_self s h,
    dropWhile_pyIsSpace_eq_self s.reverse (fun c hc => h c (List.mem_reverse.mp hc)),
    List.reverse_reverse]

theorem pyLower_eq_self : ∀ (s : Str), (∀ c ∈ s, c.toLower = c) → pyLower s = s
  | [], _ => rfl
  | a :: t, h => by
    have ht := pyLower_eq_self t (fun c hc => h c (List.mem_cons_of_mem _ hc))
    simp only [pyLower, List.map_cons] at ht ⊢
    rw [h a (List.mem_cons_self _ _), ht]

theorem pyInt?_natRepr (m : Nat) : pyInt? (natRepr m) = some (m : Int) := by
  unfold pyInt?
  rw [pyStrip_eq_self _ (fun c hc => (natRepr_char_props m c hc).2.1)]
  obtain ⟨c, ds, hrep⟩ : ∃ c ds, natRepr m = c :: ds := by
    cases h' : natRepr m with
    | nil => exact absurd h' (natRepr_ne_nil m)
    | cons c ds => exact ⟨c, ds, rfl⟩
  rw [hrep]
  have hprops := natRepr_char_props m c (by rw [hrep]; exact List.mem_cons_self _ _)
  have hall : (c :: ds).all isDigitCh = true := by rw [← hrep]; exact natRepr_all_digits m
  rw [pyIntChars?, if_neg hprops.2.2.2.1, if_neg hprops.2.2.2.2, if_pos hall, ← hrep,
    digitsToNat_natRepr]

theorem parse_duration_concat (m : Nat) (u : Char) (hu : u = 's' ∨ u = 'm' ∨ u = 'h') :
    parse_duration_to_seconds (natRepr m ++ [u]) =
      (m : Int) * (if u = 's' then 1 else if u = 'm' then 60 else 3600) := by
  have hspace : ∀ c ∈ natRepr m ++ [u], pyIsSpace c = false := by
    intro c hc
    rw [List.mem_append] at hc
    rcases hc with hc | hc
    · exact (natRepr_char_props m c hc).2.1
    · simp only [List.mem_singleton] at hc
      subst hc
      rcases hu with rfl | rfl | rfl <;> decide
  have hlower : ∀ c ∈ natRepr m ++ [u], c.toLower = c := by
    intro c hc
    rw [List.mem_append] at hc
    rcases hc with hc | hc
    · exact (natRepr_char_props m c hc).2.2.1
    · simp only [List.mem_singleton] at hc
      subst hc
      rcases hu with rfl | rfl | rfl <;> decide
  unfold parse_duration_to_seconds
  rw [pyStrip_eq_self _ hspace, pyLower_eq_self _ hlower]
  have hlen : ¬((natRepr m ++ [u]).length < 2) := by
    have h1 : 0 < (natRepr m).length := List.length_pos.mpr (natRepr_ne_nil m)
    rw [List.length_append]
    simp only [List.length_singleton]
    omega
  unfold parseDurationCore
  rw [if_neg hlen, List.getLastD_concat, List.dropLast_concat, pyInt?_natRepr]
  rcases hu with rfl | rfl | rfl <;> rw [if_neg (by simp)] <;> simp

theorem intRepr_natCast (k : ℕ) : intRepr ((k : ℕ) : ℤ) = natRepr k := by
  unfold intRepr
  rw [if_neg (by omega : ¬((k : ℤ) < 0))]
  congr 1

theorem format_natCast (n : ℕ) :
    format_seconds_to_duration ((n : ℕ) : ℤ) =
      if n = 0 then ['0', 's']
      else if n % 3600 = 0 then natRepr (n / 3600) ++ ['h']
      else if n % 60 = 0 then natRepr (n / 60) ++ ['m']
      else natRepr n ++ ['s'] := by
  unfold format_seconds_to_duration
  by_cases h0 : n = 0
  · subst h0; rfl
  · rw [if_neg (by omega : ¬((n : ℤ) = 0)), if_neg h0]
    by_cases h36 : n % 3600 = 0
    · rw [if_pos (by omega : (n : ℤ) % 3600 = 0), if_pos h36]
      rw [show Int.fdiv (n : ℤ) 3600 = ((n / 3600 : ℕ) : ℤ) from (Int.ofNat_fdiv n 3600).symm,
        intRepr_natCast]
    · rw [if_neg (by omega : ¬((n : ℤ) % 3600 = 0)), if_neg h36]
      by_cases h60 : n % 60 = 0
      · rw [if_pos (by omega : (n : ℤ) % 60 = 0), if_pos h60]
        rw [show Int.fdiv (n : ℤ) 60 = ((n / 60 : ℕ) : ℤ) from (Int.ofNat_fdiv n 60).symm,
          intRepr_natCast]
      · rw [if_neg (by omega : ¬((n : ℤ) % 60 = 0)), if_neg h60]
        rw [show ((n : ℕ) : ℤ) = (((n : ℕ) : ℤ).toNat : ℤ) by omega]
        rw [intRepr_natCast]
        congr 2

theorem parse_format_roundtrip (n : ℕ) :
    parse_duration_to_seconds (format_seconds_to_duration ((n : ℕ) : ℤ)) = ((n : ℕ) : ℤ) := by
  rw [format_natCast]
  by_cases h0 : n = 0
  · subst h0; decide
  · rw [if_neg h0]
    by_cases h36 : n % 3600 = 0
    · rw [if_pos h36, parse_duration_concat _ _ (Or.inr (Or.inr rfl)),
        if_neg (by decide), if_neg (by decide)]
      have hdvd : n / 3600 * 3600 = n := Nat.div_mul_cancel (Nat.dvd_of_mod_eq_zero h36)
      push_cast
      omega
    · rw [if_neg h36]
      by_cases h60 : n % 60 = 0
      · rw [if_pos h60, parse_duration_concat _ _ (Or.inr (Or.inl rfl)),
          if_neg (by decide), if_pos rfl]
        have hdvd : n / 60 * 60 = n := Nat.div_mul_cancel (Nat.dvd_of_mod_eq_zero h60)
        push_cast
        omega
      · rw [if_neg h60, parse_duration_concat _ _ (Or.inl rfl), if_pos rfl]
        ring

/-- Claim C10 (corrected): for every non-negative integer `n` the duration pair
round-trips: `parse_duration_to_seconds (format_seconds_to_duration n) = n`;
for every *positive* `n` the formatter picks the coarsest exact unit (hours
when divisible by 3600, else minutes when divisible by 60, else seconds);
`0` is special-cased to `'0s'` (not `'0h'`), which is the one deviation from
the claim's coarsest-unit description. -/
theorem claim10_roundtrip :
    (∀ n : ℕ,
      parse_duration_to_seconds (format_seconds_to_duration ((n : ℕ) : ℤ)) = ((n : ℕ) : ℤ)) ∧
    (∀ n : ℕ, 0 < n →
      format_seconds_to_duration ((n : ℕ) : ℤ) =
        if n % 3600 = 0 then natRepr (n / 3600) ++ ['h']
        else if n % 60 = 0 then natRepr (n / 60) ++ ['m']
        else natRepr n ++ ['s']) ∧
    format_seconds_to_duration 0 = ['0', 's'] := by
  refine ⟨parse_format_roundtrip, ?_, rfl⟩
  intro n hn
  rw [format_natCast, if_neg (by omega)]

/-- Claim C10 witness: the round trip and the coarsest-unit shape at `n = 7200`. -/
theorem claim10_witness :
    parse_duration_to_seconds (format_seconds_to_duration ((7200 : ℕ) : ℤ)) = ((7200 : ℕ) : ℤ) ∧
    (0 < (7200 : ℕ)) ∧
    format_seconds_to_duration ((7200 : ℕ) : ℤ) = natRepr 2 ++ ['h'] := by
  refine ⟨claim10_roundtrip.1 7200, by norm_num, ?_⟩
  have h := claim10_roundtrip.2.1 7200 (by norm_num)
  rw [if_pos (by norm_num)] at h
  have h2 : (7200 : ℕ) / 3600 = 2 := by norm_num
  rw [h2] at h
  exact h

/-- Claim C10 counterexample: `0` is divisible by 3600, yet
`format_seconds_to_duration 0 = '0s'` rather than the `'0h'` the claim's
coarsest-unit ("hours if divisible by 3600") clause dictates. -/
theorem claim10_counterexample :
    (0 : ℤ) % 3600 = 0 ∧ format_seconds_to_duration 0 = ['0', 's'] ∧
      format_seconds_to_duration 0 ≠ ['0', 'h'] :=
  ⟨rfl, rfl, by decide⟩

/-- Claim C3 (confirmed): a `set_token_global_backoff` whose deadline is ≤ the
stored deadline leaves the table unchanged; the value read back through
`get_token_global_backoff` never decreases across a set call, and at the
updated credential it is exactly the max of the old value and the request. -/
theorem claim3_backoff_monotone (tbl : Str → Option ℚ) (token t : Str) (u : ℚ) :
    (u ≤ get_token_global_backoff tbl token → set_token_global_backoff tbl token u = tbl) ∧
    get_token_global_backoff tbl t ≤
      get_token_global_backoff (set_token_global_backoff tbl token u) t ∧
    get_token_global_backoff (set_token_global_backoff tbl token u) token =
      max (get_token_global_backoff tbl token) u := by
  simp only [get_token_global_backoff, set_token_global_backoff]
  by_cases hlt : (tbl token).getD 0 < u
  · refine ⟨fun h => absurd hlt (not_lt.mpr h), ?_, ?_⟩
    · rw [if_pos hlt]
      by_cases ht : t = token
      · subst ht
        simp only [if_pos rfl, Option.getD_some]
        exact le_of_lt hlt
      · simp only [if_neg ht, le_refl]
    · rw [if_pos hlt]
      simp only [if_pos rfl, Option.getD_some]
      exact (max_eq_right (le_of_lt hlt)).symm
  · refine ⟨fun _ => if_neg hlt, ?_, ?_⟩
    · rw [if_neg hlt]
    · rw [if_neg hlt]
      exact (max_eq_left (not_lt.mp hlt)).symm

/-- Claim C3 witness: on the empty table a set with deadline 0 (≤ the stored 0)
leaves the table unchanged and the read value does not decrease. -/
theorem claim3_witness :
    ((0 : ℚ) ≤ get_token_global_backoff (fun _ => none) ['t']) ∧
    set_token_global_backoff (fun _ => none) ['t'] 0 = (fun _ => none) ∧
    get_token_global_backoff (fun _ => none) ['t'] ≤
      get_token_global_backoff (set_token_global_backoff (fun _ => none) ['t'] 0) ['t'] :=
  ⟨le_refl _, (claim3_backoff_monotone (fun _ => none) ['t'] ['t'] 0).1 (le_refl _),
    (claim3_backoff_monotone (fun _ => none) ['t'] ['t'] 0).2.1⟩

theorem regFind_eq_none (reg : Registry) (k : Str) :
    regFind reg k = none ↔ k ∉ reg.map Prod.fst := by
  induction reg with
  | nil => simp [regFind]
  | cons a t ih =>
    rcases a with ⟨k', c⟩
    simp only [regFind, List.map_cons, List.mem_cons]
    by_cases h : k' = k
    · subst h; simp
    · rw [if_neg h, ih]
      constructor
      · intro hn hor
        rcases hor with rfl | hmem
        · exact h rfl
        · exact hn hmem
      · intro hn hmem
        exact hn (Or.inr hmem)

theorem regFind_append_self (reg : Registry) (k : Str) (c : Nat) :
    regFind (reg ++ [(k, c)]) k = some (((regFind reg k).getD c)) := by
  induction reg with
  | nil => simp [regFind]
  | cons a t ih =>
    rcases a with ⟨k', c'⟩
    by_cases h : k' = k
    · subst h; simp [regFind]
    · simp [regFind, h, ih]

theorem regCount_of_nodup (reg : Registry) (k : Str) (hnd : (reg.map Prod.fst).Nodup) :
    reg.countP (fun e => e.1 == k) = if (regFind reg k).isSome then 1 else 0 := by
  induction reg with
  | nil => simp [regFind]
  | cons a t ih =>
    rcases a with ⟨k', c'⟩
    simp only [List.map_cons, List.nodup_cons] at hnd
    by_cases h : k' = k
    · subst h
      have hnone : regFind t k' = none := (regFind_eq_none t k').mpr hnd.1
      have hzero : t.countP (fun e => e.1 == k') = 0 := by
        rw [ih hnd.2, hnone]
        rfl
      simp [List.countP_cons, regFind, hzero]
    · simp only [List.countP_cons, regFind, if_neg h]
      have : ((k', c').1 == k) = false := by
        simp [h]
      rw [this, ih hnd.2]
      simp

theorem regStep_nodup (st : Registry × Nat) (op : RegOp)
    (h : (st.1.map Prod.fst).Nodup) : ((regStep st op).1.map Prod.fst).Nodup := by
  cases op with
  | add key ok =>
    cases key with
    | none => exact h
    | some k =>
      simp only [regStep, add_task_async]
      by_cases hf : (regFind st.1 k).isSome
      · rw [if_pos hf]; exact h
      · rw [if_neg hf]
        cases ok with
        | true =>
          show (List.map Prod.fst (st.1 ++ [(k, st.2)])).Nodup
          rw [List.map_append]
          simp only [List.map_cons, List.map_nil]
          rw [List.nodup_append]
          refine ⟨h, List.nodup_singleton k, ?_⟩
          intro x hx hx'
          simp only [List.mem_singleton] at hx'
          subst hx'
          have : regFind st.1 x = none := by
            cases hr : regFind st.1 x with
            | none => rfl
            | some c => rw [hr] at hf; simp at hf
          exact (regFind_eq_none st.1 x).mp this hx
        | false => exact h
  | remove k =>
    simp only [regStep, remove_task_async]
    exact h.sublist (List.Sublist.map Prod.fst (List.filter_sublist st.1))

theorem regRun_nodup (ops : List RegOp) : ((regRun ops).1.map Prod.fst).Nodup := by
  have hgen : ∀ st : Registry × Nat, (st.1.map Prod.fst).Nodup →
      ((ops.foldl regStep st).1.map Prod.fst).Nodup := by
    induction ops with
    | nil => intro st h; exact h
    | cons op t ih =>
      intro st h
      exact ih _ (regStep_nodup st op h)
  exact hgen ([], 0) List.nodup_nil

theorem add_task_registers (st : Registry × Nat) (k : Str) :
    (regFind (regStep st (RegOp.add (some k) true)).1 k).isSome = true := by
  simp only [regStep, add_task_async]
  by_cases hf : (regFind st.1 k).isSome
  · rw [if_pos hf]; exact hf
  · rw [if_neg hf]
    show (regFind (st.1 ++ [(k, st.2)]) k).isSome = true
    rw [regFind_append_self]
    rfl

/-- Claim C2 (confirmed): adding the same Task Key twice in a row leaves the
Manager state exactly as after the first add (the second `_add_task_async` is
a full no-op: no replacement, no duplicate, no worker constructed); after the
double add exactly one registry entry carries the key; and after *any*
sequence of add/remove operations the registry keys are duplicate-free, i.e.
each key maps to at most one worker. -/
theorem claim2_add_task_idempotent (ops : List RegOp) (k : Str) :
    (regStep (regStep (regRun ops) (RegOp.add (some k) true)) (RegOp.add (some k) true) =
      regStep (regRun ops) (RegOp.add (some k) true)) ∧
    ((regStep (regRun ops) (RegOp.add (some k) true)).1.countP (fun e => e.1 == k) = 1) ∧
    ((regRun ops).1.map Prod.fst).Nodup := by
  have hnd := regRun_nodup ops
  have hnd1 := regStep_nodup (regRun ops) (RegOp.add (some k) true) hnd
  have hreg := add_task_registers (regRun ops) k
  refine ⟨?_, ?_, hnd⟩
  · show add_task_async _ (some k) true = _
    simp only [add_task_async]
    rw [if_pos hreg]
  · rw [regCount_of_nodup _ k hnd1, hreg]
    rfl

/-- Claim C5 (confirmed): in the posting loop a soft failure below the streak
threshold performs no reset and reschedules after `max 30 (base delay)`
seconds; the failure that brings the streak to 5 performs the reset and zeroes
the streak; a run of five consecutive soft failures from a fresh state
performs exactly one reset ending with streak 0 (and only zero resets in the
first four); a subsequent `ok` zeroes the streak without a further reset. -/
theorem claim5_failure_streak (ch : ChannelCfg) (pick : Nat) (ra : ℚ) (n : Nat) :
    (n + 1 < 5 → loopStep ch pick ra ⟨n⟩ SendResult.error =
      (⟨n + 1⟩, false, some (((max 30 (baseDelay ch) : ℤ)) : ℚ))) ∧
    loopStep ch pick ra ⟨4⟩ SendResult.error =
      (⟨0⟩, true, some (((max 30 (baseDelay ch) : ℤ)) : ℚ)) ∧
    runLoop ch pick ra ⟨0⟩ (List.replicate 4 SendResult.error) = (⟨4⟩, 0) ∧
    runLoop ch pick ra ⟨0⟩ (List.replicate 5 SendResult.error) = (⟨0⟩, 1) ∧
    (loopStep ch pick ra ⟨n⟩ SendResult.ok).1 = ⟨0⟩ ∧
    (loopStep ch pick ra ⟨n⟩ SendResult.ok).2.1 = false ∧
    runLoop ch pick ra ⟨0⟩ (List.replicate 5 SendResult.error ++ [SendResult.ok]) = (⟨0⟩, 1) := by
  refine ⟨?_, rfl, rfl, rfl, rfl, rfl, rfl⟩
  intro h
  have hlt : ¬(5 ≤ n + 1) := by omega
  dsimp only [loopStep]
  rw [if_neg hlt]

/-- Claim C5 witness: the first soft failure from a fresh worker increments the
streak to 1, performs no reset, and backs off `max 30 (base delay)`. -/
theorem claim5_witness :
    (0 + 1 < 5) ∧
    loopStep ⟨none, none⟩ 0 0 ⟨0⟩ SendResult.error =
      (⟨1⟩, false, some (((max 30 (baseDelay ⟨none, none⟩) : ℤ)) : ℚ)) :=
  ⟨by norm_num, (claim5_failure_streak ⟨none, none⟩ 0 0 0).1 (by norm_num)⟩

/-- Claim C6 (confirmed): with base delay `'2m'` (120 s) and jitter candidates
`'30s,60s'`, the delay applied after a successful send is 150 or 180 seconds
for every random choice, and both values are realised; with no jitter
configured the delay is `max 1 (base delay)`; the applied delay is always
≥ 1; and the `ok` branch of the posting loop schedules exactly this delay
while zeroing the failure streak. -/
theorem claim6_ok_delay (pick : Nat) (d : Option Str) (n : Nat) (ra : ℚ) (ch : ChannelCfg) :
    (okDelay ⟨some (("2m").toList), some (("30s,60s").toList)⟩ pick = 150 ∨
      okDelay ⟨some (("2m").toList), some (("30s,60s").toList)⟩ pick = 180) ∧
    okDelay ⟨some (("2m").toList), some (("30s,60s").toList)⟩ 0 = 150 ∧
    okDelay ⟨some (("2m").toList), some (("30s,60s").toList)⟩ 1 = 180 ∧
    okDelay ⟨d, none⟩ pick = max 1 (baseDelay ⟨d, none⟩) ∧
    1 ≤ okDelay ch pick ∧
    loopStep ch pick ra ⟨n⟩ SendResult.ok = (⟨0⟩, false, some ((okDelay ch pick : ℚ))) := by
  have hok : ∀ p : Nat,
      okDelay ⟨some (("2m").toList), some (("30s,60s").toList)⟩ p =
        max 1 (120 + ([30, 60] : List Int).getD (p % 2) 0) := fun _ => rfl
  refine ⟨?_, ?_, ?_, rfl, ?_, rfl⟩
  · rcases Nat.mod_two_eq_zero_or_one pick with h | h
    · left
      rw [hok, h]
      decide
    · right
      rw [hok, h]
      decide
  · rw [hok]
    decide
  · rw [hok]
    decide
  · exact le_max_left _ _

theorem truncated_detail_length (d : Str) : (truncated_detail d).length ≤ 200 := by
  unfold truncated_detail
  split
  · next h =>
    rw [List.length_append, List.length_take]
    have h3 : ((("...").toList).length) = 3 := rfl
    omega
  · next h => omega

theorem regFind_remove (clients : Registry) (k : Str) :
    regFind (remove_task_async clients k) k = none := by
  rw [regFind_eq_none]
  intro hmem
  rw [List.mem_map] at hmem
  obtain ⟨e, he, hek⟩ := hmem
  rw [remove_task_async, List.mem_filter] at he
  have hne := he.2
  simp only [decide_eq_true_eq] at hne
  exact hne hek

theorem deactivate_channel_first_find (chs : List TargetChannel) (chId label : Str)
    (c0 : TargetChannel)
    (h : chs.find? (fun ch => decide (ch.channel_id = chId)) = some c0) :
    (deactivate_channel_first chs chId label).find? (fun ch => decide (ch.channel_id = chId)) =
      some { c0 with is_active := false, last_error := some label } := by
  induction chs with
  | nil => simp [List.find?] at h
  | cons a t ih =>
    by_cases ha : a.channel_id = chId
    · rw [List.find?_cons_of_pos _ (by simp [ha])] at h
      injection h with h
      subst h
      rw [deactivate_channel_first, if_pos ha,
        List.find?_cons_of_pos _ (by simp [ha])]
    · rw [List.find?_cons_of_neg _ (by simp [ha])] at h
      rw [deactivate_channel_first, if_neg ha,
        List.find?_cons_of_neg _ (by simp [ha])]
      exact ih h

theorem deactivate_target_unexpected_find (accs : List Account) (accId chId label : Str)
    (c0 : TargetChannel) (h : findChannel accs accId chId = some c0) :
    findChannel (deactivate_target_unexpected accs accId chId label) accId chId =
      some { c0 with is_active := false, last_error := some label } := by
  induction accs with
  | nil => simp [findChannel, List.find?] at h
  | cons a t ih =>
    by_cases ha : a.user_id = accId
    · unfold findChannel at h ⊢
      rw [List.find?_cons_of_pos _ (by simp [ha])] at h
      rw [deactivate_target_unexpected, if_pos ha,
        List.find?_cons_of_pos _ (by simp [ha])]
      rw [Option.some_bind] at h ⊢
      exact deactivate_channel_first_find a.channels chId label c0 h
    · unfold findChannel at h ⊢
      rw [List.find?_cons_of_neg _ (by simp [ha])] at h
      rw [deactivate_target_unexpected, if_neg ha,
        List.find?_cons_of_neg _ (by simp [ha])]
      exact ih h

/-- Claim C1 counterexample: on a 400 response `_send_post` assigns `'error'`
as its result, not `'fatal'` as the claim states (the posting loop exits only
because the unexpected-error handler removed/stopped the worker). -/
theorem claim1_counterexample :
    send_post_result 400 = SendResult.error ∧ SendResult.error ≠ SendResult.fatal :=
  ⟨rfl, by decide⟩

/-- Claim C1 (amended): for statuses 400/404/405 `_send_post` returns `'error'`
(not `'fatal'`); `_handle_unexpected_error` marks the worker's fatal guard,
emits exactly one notification whose error detail is at most 200 characters,
and the manager handler deregisters the worker's Task Key and deactivates the
target channel in storage. -/
theorem claim1_amended (status : Nat) (h : status = 400 ∨ status = 404 ∨ status = 405)
    (dataDetail : Option Str) (text : Str) (clients : Registry) (accounts : List Account)
    (k accId chId label errMsg : Str) (c0 : TargetChannel)
    (hch : findChannel accounts accId chId = some c0) :
    send_post_result status = SendResult.error ∧
    (client_handle_unexpected_error false status dataDetail text).fatalHandled = true ∧
    (∃ m, (client_handle_unexpected_error false status dataDetail text).notice = some m ∧
      m.length ≤ 200) ∧
    regFind (handle_unexpected_error clients accounts (some k) accId chId label status
        errMsg).clients k = none ∧
    findChannel (handle_unexpected_error clients accounts (some k) accId chId label status
        errMsg).accounts accId chId =
      some { c0 with is_active := false, last_error := some label } ∧
    (handle_unexpected_error clients accounts (some k) accId chId label status
        errMsg).notices = [(status, errMsg)] := by
  have hnot500 : ¬(500 ≤ status) := by rcases h with rfl | rfl | rfl <;> norm_num
  refine ⟨?_, ?_, ?_, ?_, ?_, rfl⟩
  · rcases h with rfl | rfl | rfl <;> rfl
  · dsimp only [client_handle_unexpected_error]
    rw [if_neg (by simp), if_neg hnot500, if_pos h]
  · dsimp only [client_handle_unexpected_error]
    rw [if_neg (by simp), if_neg hnot500, if_pos h]
    refine ⟨_, rfl, ?_⟩
    by_cases hd :
        truncated_detail (if dataDetail.getD [] = [] then pyStrip text else dataDetail.getD []) = []
    · rw [if_pos hd]
      decide
    · rw [if_neg hd]
      exact truncated_detail_length _
  · dsimp only [handle_unexpected_error]
    exact regFind_remove clients k
  · dsimp only [handle_unexpected_error]
    exact deactivate_target_unexpected_find accounts accId chId label c0 hch

/-- Claim C1 witness: a concrete 400 send against a one-account, one-channel
store: result is `'error'` and the worker's registry entry is removed. -/
theorem claim1_witness :
    send_post_result 400 = SendResult.error ∧
    regFind (handle_unexpected_error [((("t_1").toList), 0)]
        [⟨("a").toList, true, [⟨("1").toList, true, none⟩]⟩] (some (("t_1").toList))
        (("a").toList) (("1").toList) (("lbl").toList) 400 (("bad").toList)).clients
      (("t_1").toList) = none :=
  ⟨(claim1_amended 400 (Or.inl rfl) none (("bad").toList) [((("t_1").toList), 0)]
      [⟨("a").toList, true, [⟨("1").toList, true, none⟩]⟩] (("t_1").toList) (("a").toList)
      (("1").toList) (("lbl").toList) (("bad").toList) ⟨("1").toList, true, none⟩ rfl).1,
   (claim1_amended 400 (Or.inl rfl) none (("bad").toList) [((("t_1").toList), 0)]
      [⟨("a").toList, true, [⟨("1").toList, true, none⟩]⟩] (("t_1").toList) (("a").toList)
      (("1").toList) (("lbl").toList) (("bad").toList) ⟨("1").toList, true, none⟩ rfl).2.2.2.1⟩

theorem deactivate_account_all_find (accs : List Account) (accId : Str) (a0 : Account)
    (h : findAccount accs accId = some a0) :
    findAccount (deactivate_account_all accs accId) accId =
      some { a0 with
        is_active := false
        channels := a0.channels.map (fun ch => { ch with is_active := false }) } := by
  induction accs with
  | nil => simp [findAccount, List.find?] at h
  | cons a t ih =>
    by_cases ha : a.user_id = accId
    · unfold findAccount at h ⊢
      rw [List.find?_cons_of_pos _ (by simp [ha])] at h
      injection h with h
      subst h
      rw [deactivate_account_all, if_pos ha,
        List.find?_cons_of_pos _ (by simp [ha])]
    · unfold findAccount at h ⊢
      rw [List.find?_cons_of_neg _ (by simp [ha])] at h
      rw [deactivate_account_all, if_neg ha,
        List.find?_cons_of_neg _ (by simp [ha])]
      exact ih h

/-- Claim C7 counterexample: the notify guard (`_fatal_handled`) lives on each
worker, not on the credential: two workers sharing one credential that each
receive a 401 emit two `token_expired` notifications in total, not one. -/
theorem claim7_counterexample :
    two_worker_401_notices [((("t_1").toList), 0), ((("t_2").toList), 1)]
      [⟨("a").toList, true, [⟨("1").toList, true, none⟩, ⟨("2").toList, true, none⟩]⟩]
      (("t_1").toList) (("t_2").toList) (("a").toList) = 2 ∧ (2 : Nat) ≠ 1 :=
  ⟨rfl, by decide⟩

/-- Claim C7 (amended): a 401 deregisters (stops) the worker, deactivates the
owning account together with every one of its targets in storage, and emits
exactly one notification *per worker*: the guard is per-worker, so a repeat
401 on the same worker emits nothing further, while each additional worker
sharing the credential emits its own notification (two workers → two). -/
theorem claim7_amended (clients : Registry) (accounts : List Account) (k accId : Str)
    (a0 : Account) (hacc : findAccount accounts accId = some a0) :
    ((client_handle_token_expired false clients accounts (some k) accId).1 = true) ∧
    ((client_handle_token_expired false clients accounts (some k) accId).2.notices = 1) ∧
    (regFind (client_handle_token_expired false clients accounts (some k) accId).2.clients k =
      none) ∧
    (∃ a', findAccount
        (client_handle_token_expired false clients accounts (some k) accId).2.accounts accId =
          some a' ∧
        a'.is_active = false ∧ ∀ ch ∈ a'.channels, ch.is_active = false) ∧
    (∀ cl ac key aid, (client_handle_token_expired true cl ac key aid).2.notices = 0) ∧
    two_worker_401_notices clients accounts k k accId = 2 := by
  refine ⟨rfl, rfl, ?_, ?_, fun _ _ _ _ => rfl, rfl⟩
  · show regFind (remove_task_async clients k) k = none
    exact regFind_remove clients k
  · refine ⟨{ a0 with
        is_active := false
        channels := a0.channels.map (fun ch => { ch with is_active := false }) }, ?_, rfl, ?_⟩
    · show findAccount (deactivate_account_all accounts accId) accId = _
      exact deactivate_account_all_find accounts accId a0 hacc
    · intro ch hch
      rw [List.mem_map] at hch
      obtain ⟨x, _, rfl⟩ := hch
      rfl

/-- Claim C7 witness: concrete one-account store; the 401 path emits one
notification and the account lookup shows it fully deactivated. -/
theorem claim7_witness :
    ((client_handle_token_expired false [((("t_1").toList), 0)]
        [⟨("a").toList, true, [⟨("1").toList, true, none⟩]⟩]
        (some (("t_1").toList)) (("a").toList)).2.notices = 1) ∧
    (∃ a', findAccount
        (client_handle_token_expired false [((("t_1").toList), 0)]
          [⟨("a").toList, true, [⟨("1").toList, true, none⟩]⟩]
          (some (("t_1").toList)) (("a").toList)).2.accounts (("a").toList) = some a' ∧
        a'.is_active = false ∧ ∀ ch ∈ a'.channels, ch.is_active = false) :=
  ⟨(claim7_amended [((("t_1").toList), 0)]
      [⟨("a").toList, true, [⟨("1").toList, true, none⟩]⟩] (("t_1").toList) (("a").toList)
      ⟨("a").toList, true, [⟨("1").toList, true, none⟩]⟩ rfl).2.1,
   (claim7_amended [((("t_1").toList), 0)]
      [⟨("a").toList, true, [⟨("1").toList, true, none⟩]⟩] (("t_1").toList) (("a").toList)
      ⟨("a").toList, true, [⟨("1").toList, true, none⟩]⟩ rfl).2.2.2.1⟩

/-- Claim C8 counterexample: a completed stop of a running worker emits no
completion report to the Manager at all (count 0, not "exactly once"); no
notified flag exists in either stop path. -/
theorem claim8_counterexample :
    (client_stop ⟨true, false⟩).1.stopped = true ∧
    (client_stop ⟨true, false⟩).2.count ClientEvent.notifyManagerDone = 0 ∧
    (force_close ⟨true, false⟩).2.count ClientEvent.notifyManagerDone = 0 ∧
    (0 : Nat) ≠ 1 :=
  ⟨rfl, rfl, rfl, by decide⟩

/-- Claim C8 (amended): `stop` is idempotent — a second `stop` returns
immediately with no further actions; every completed stop (graceful or
`force_close`) leaves the worker with `running = false`, `stopped = true`;
and neither path reports completion to the Manager (the code has no notified
flag and no completion callback; the Manager observes stops through its own
remove/reaper paths). -/
theorem claim8_amended (c : ClientFlags) :
    client_stop (client_stop c).1 = ((client_stop c).1, []) ∧
    (client_stop c).1.stopped = true ∧
    (c.stopped = false → client_stop c =
      (⟨false, true⟩, [ClientEvent.cancelBackground, ClientEvent.cancelMainTask,
        ClientEvent.releaseSessions, ClientEvent.closeDefaultSession,
        ClientEvent.optimizeMemory])) ∧
    (force_close c).1 = ⟨false, true⟩ ∧
    (client_stop c).2.count ClientEvent.notifyManagerDone = 0 ∧
    (force_close c).2.count ClientEvent.notifyManagerDone = 0 := by
  rcases c with ⟨r, s⟩
  cases r <;> cases s <;> refine ⟨rfl, rfl, ?_, rfl, rfl, rfl⟩ <;> intro h <;> first
    | rfl
    | exact absurd h (by decide)

/-- Claim C8 witness: stopping a running, not-yet-stopped worker runs the full
graceful path and a second stop is a no-op. -/
theorem claim8_witness :
    ((⟨true, false⟩ : ClientFlags).stopped = false) ∧
    client_stop ⟨true, false⟩ =
      (⟨false, true⟩, [ClientEvent.cancelBackground, ClientEvent.cancelMainTask,
        ClientEvent.releaseSessions, ClientEvent.closeDefaultSession,
        ClientEvent.optimizeMemory]) ∧
    client_stop (client_stop ⟨true, false⟩).1 = ((client_stop ⟨true, false⟩).1, []) :=
  ⟨rfl, (claim8_amended ⟨true, false⟩).2.2.1 rfl, (claim8_amended ⟨true, false⟩).1⟩

/-- Claim C9 (code bug): `_mask_token` does produce the claimed `first4***last4`
preview for long tokens, and `_describe_task` uses it — but the
`_add_task_async` skip branch (like the remove/restart/start-failure logs)
renders the raw Task Key with `key=%s`, and the Task Key embeds the full
credential, so the rendered log line contains the unmasked token. -/
theorem claim9_token_leak (token chId userId accId : Str)
    (htok : token ≠ []) (hch : chId ≠ []) :
    task_key (some token) (some chId) = some (token ++ '_' :: chId) ∧
    (∃ pre post,
      add_task_skip_log (token ++ '_' :: chId) (describe_task userId accId chId (some token)) =
        pre ++ token ++ post) ∧
    (8 < token.length → mask_token (some token) =
      token.take 4 ++ ("***").toList ++ token.drop (token.length - 4)) ∧
    ('*' ∉ token → token ≠ mask_token (some token)) := by
  refine ⟨?_, ?_, ?_, ?_⟩
  · rw [task_key, if_pos ⟨htok, hch⟩]
  · refine ⟨("AutoPostManager.add_task skipped existing client key=").toList,
      '_' :: chId ++ (" (").toList ++ describe_task userId accId chId (some token) ++
        (")").toList, ?_⟩
    simp [add_task_skip_log, List.append_assoc]
  · intro hlen
    rw [mask_token, if_neg htok, if_neg (by omega)]
  · intro hstar heq
    have hmem : '*' ∈ mask_token (some token) := by
      rw [mask_token, if_neg htok]
      by_cases h8 : token.length ≤ 8
      · rw [if_pos h8]
        simp
      · rw [if_neg h8]
        simp
    rw [← heq] at hmem
    exact hstar hmem

/-- Claim C9 witness: a concrete long credential; the rendered `add_task` skip
log contains it verbatim while its masked preview is `SECR***2345`. -/
theorem claim9_witness :
    (("SECRETTOKEN12345").toList ≠ []) ∧
    (∃ pre post,
      add_task_skip_log ((("SECRETTOKEN12345").toList) ++ '_' :: (("123").toList))
        (describe_task (("u1").toList) (("a1").toList) (("123").toList)
          (some (("SECRETTOKEN12345").toList))) =
        pre ++ ("SECRETTOKEN12345").toList ++ post) ∧
    mask_token (some (("SECRETTOKEN12345").toList)) = ("SECR***2345").toList ∧
    ("SECRETTOKEN12345").toList ≠ mask_token (some (("SECRETTOKEN12345").toList)) := by
  refine ⟨by decide, (claim9_token_leak (("SECRETTOKEN12345").toList) (("123").toList)
      (("u1").toList) (("a1").toList) (by decide) (by decide)).2.1, by decide,
    (claim9_token_leak (("SECRETTOKEN12345").toList) (("123").toList)
      (("u1").toList) (("a1").toList) (by decide) (by decide)).2.2.2 (by decide)⟩

theorem poolFind_eq_none (pool : List (Str × SharedHTTPSession)) (k : Str) :
    poolFind pool k = none ↔ k ∉ pool.map Prod.fst := by
  induction pool with
  | nil => simp [poolFind]
  | cons a t ih =>
    rcases a with ⟨k', e⟩
    simp only [poolFind, List.map_cons, List.mem_cons]
    by_cases h : k' = k
    · subst h; simp
    · rw [if_neg h, ih]
      constructor
      · intro hn hor
        rcases hor with rfl | hmem
        · exact h rfl
        · exact hn hmem
      · intro hn hmem
        exact hn (Or.inr hmem)

theorem poolFind_mem (pool : List (Str × SharedHTTPSession)) (k : Str)
    (e : SharedHTTPSession) (h : poolFind pool k = some e) : (k, e) ∈ pool := by
  induction pool with
  | nil => simp [poolFind] at h
  | cons a t ih =>
    rcases a with ⟨k', e'⟩
    rw [poolFind] at h
    by_cases hk : k' = k
    · rw [if_pos hk] at h
      injection h with h
      subst hk
      subst h
      exact List.mem_cons_self _ _
    · rw [if_neg hk] at h
      exact List.mem_cons_of_mem _ (ih h)

theorem poolFind_append_last (pool : List (Str × SharedHTTPSession)) (k : Str)
    (e : SharedHTTPSession) (h : poolFind pool k = none) :
    poolFind (pool ++ [(k, e)]) k = some e := by
  induction pool with
  | nil => simp [poolFind]
  | cons a t ih =>
    rcases a with ⟨k', e'⟩
    rw [poolFind] at h
    by_cases hk : k' = k
    · rw [if_pos hk] at h
      exact absurd h (by simp)
    · rw [if_neg hk] at h
      rw [List.cons_append, poolFind, if_neg hk]
      exact ih h

theorem poolSet_of_not_mem (l : List (Str × SharedHTTPSession)) (k : Str)
    (e : SharedHTTPSession) (h : k ∉ l.map Prod.fst) : poolSet l k e = l := by
  induction l with
  | nil => rfl
  | cons a t ih =>
    rcases a with ⟨k', e'⟩
    simp only [List.map_cons, List.mem_cons] at h
    push_neg at h
    unfold poolSet at ih ⊢
    rw [List.map_cons, if_neg (fun hk => h.1 hk.symm), ih h.2]

theorem poolFilter_of_not_mem (l : List (Str × SharedHTTPSession)) (k : Str)
    (h : k ∉ l.map Prod.fst) : l.filter (fun p => decide (p.1 ≠ k)) = l := by
  induction l with
  | nil => rfl
  | cons a t ih =>
    rcases a with ⟨k', e'⟩
    simp only [List.map_cons, List.mem_cons] at h
    push_neg at h
    rw [List.filter_cons, if_pos (by simpa using fun hk => h.1 hk.symm), ih h.2]

theorem pool_decomp (pool : List (Str × SharedHTTPSession)) (k : Str)
    (e0 : SharedHTTPSession) (hnd : (pool.map Prod.fst).Nodup)
    (hfind : poolFind pool k = some e0) :
    ∃ l1 l2, pool = l1 ++ (k, e0) :: l2 ∧ k ∉ l1.map Prod.fst ∧ k ∉ l2.map Prod.fst ∧
      (∀ e, poolSet pool k e = l1 ++ (k, e) :: l2) ∧
      pool.filter (fun p => decide (p.1 ≠ k)) = l1 ++ l2 := by
  induction pool with
  | nil => simp [poolFind] at hfind
  | cons a t ih =>
    rcases a with ⟨k', e'⟩
    simp only [List.map_cons, List.nodup_cons] at hnd
    rw [poolFind] at hfind
    by_cases hk : k' = k
    · rw [if_pos hk] at hfind
      injection hfind with hfind
      subst hk
      subst hfind
      refine ⟨[], t, by simp, by simp, hnd.1, ?_, ?_⟩
      · intro e
        unfold poolSet
        rw [List.map_cons, if_pos rfl, List.nil_append]
        rw [show List.map (fun p => if p.1 = k' then (k', e) else p) t = poolSet t k' e from rfl,
          poolSet_of_not_mem t k' e hnd.1]
      · rw [List.filter_cons, if_neg (by simp), List.nil_append]
        exact poolFilter_of_not_mem t k' hnd.1
    · rw [if_neg hk] at hfind
      obtain ⟨l1, l2, hsplit, h1, h2, hset, hfilter⟩ := ih hnd.2 hfind
      refine ⟨(k', e') :: l1, l2, by rw [List.cons_append, hsplit], ?_, h2, ?_, ?_⟩
      · simp only [List.map_cons, List.mem_cons]
        push_neg
        exact ⟨fun hkk => hk hkk.symm, h1⟩
      · intro e
        unfold poolSet
        rw [List.map_cons, if_neg hk, List.cons_append]
        rw [show List.map (fun p => if p.1 = k then (k, e) else p) t = poolSet t k e from rfl,
          hset e]
      · rw [List.filter_cons, if_pos (by simpa using hk), hfilter, List.cons_append]

theorem poolSet_append_last (l : List (Str × SharedHTTPSession)) (k : Str)
    (e0 e : SharedHTTPSession) (h : k ∉ l.map Prod.fst) :
    poolSet (l ++ [(k, e0)]) k e = l ++ [(k, e)] := by
  unfold poolSet
  rw [List.map_append]
  congr 1
  · exact poolSet_of_not_mem l k e h
  · simp

theorem poolSet_keys (l : List (Str × SharedHTTPSession)) (k : Str) (e : SharedHTTPSession) :
    (poolSet l k e).map Prod.fst = l.map Prod.fst := by
  induction l with
  | nil => rfl
  | cons a t ih =>
    rcases a with ⟨k', e'⟩
    unfold poolSet at ih ⊢
    rw [List.map_cons, List.map_cons, List.map_cons]
    by_cases hk : k' = k
    · rw [if_pos hk, ih]
      subst hk
      rfl
    · rw [if_neg hk, ih]

theorem acquire_found (st : PoolState) (idx : Nat) (e0 : SharedHTTPSession) (s0 : Nat)
    (hfind : poolFind st.pool (sessionKeyForProxy idx) = some e0)
    (hs : e0.session = some s0) (hnc : s0 ∉ st.closedSessions) :
    (acquire_proxy_session st idx).1 =
      ⟨poolSet st.pool (sessionKeyForProxy idx) ⟨e0.refCount + 1, some s0⟩,
        st.nextSession, st.closedSessions⟩ := by
  simp only [acquire_proxy_session, hfind, Option.isSome_some, if_true, Option.getD_some, hs]
  rw [if_pos (by simp [hnc])]

theorem acquire_new (st : PoolState) (idx : Nat)
    (hfind : poolFind st.pool (sessionKeyForProxy idx) = none) :
    (acquire_proxy_session st idx).1 =
      ⟨st.pool ++ [(sessionKeyForProxy idx, ⟨1, some st.nextSession⟩)],
        st.nextSession + 1, st.closedSessions⟩ := by
  have hnotmem : sessionKeyForProxy idx ∉ st.pool.map Prod.fst := (poolFind_eq_none _ _).mp hfind
  have happ := poolFind_append_last st.pool (sessionKeyForProxy idx) ⟨0, none⟩ hfind
  simp only [acquire_proxy_session, hfind, Option.isSome_none, Bool.false_eq_true, if_false,
    happ, Option.getD_some]
  rw [poolSet_append_last _ _ _ _ hnotmem]
  norm_num

theorem release_unknown (st : PoolState) (k : Str) (hfind : poolFind st.pool k = none) :
    release_proxy_session st k = st := by
  unfold release_proxy_session
  rw [hfind]

theorem release_to_zero (st : PoolState) (k : Str) (e0 : SharedHTTPSession)
    (hfind : poolFind st.pool k = some e0) (hrc : e0.refCount = 1) :
    release_proxy_session st k =
      ⟨st.pool.filter (fun p => decide (p.1 ≠ k)), st.nextSession,
        st.closedSessions ++ (match e0.session with
          | some s => [s]
          | none => [])⟩ := by
  unfold release_proxy_session
  rw [hfind]
  dsimp only
  rw [hrc]
  norm_num

theorem release_decrement (st : PoolState) (k : Str) (e0 : SharedHTTPSession)
    (hfind : poolFind st.pool k = some e0) (hrc : 1 < e0.refCount) :
    release_proxy_session st k =
      ⟨poolSet st.pool k ⟨e0.refCount - 1, e0.session⟩, st.nextSession, st.closedSessions⟩ := by
  unfold release_proxy_session
  rw [hfind]
  dsimp only
  rw [if_pos (by omega : (0 : ℤ) < e0.refCount), if_neg (by omega : ¬(e0.refCount - 1 = 0))]

theorem poolStep_inv (st : PoolState) (op : PoolOp) (h : PoolInv st) :
    PoolInv (poolStep st op) := by
  obtain ⟨hent, hkeys, hsess, hclosed, hbound⟩ := h
  cases op with
  | acquire idx =>
    show PoolInv (acquire_proxy_session st idx).1
    cases hfind : poolFind st.pool (sessionKeyForProxy idx) with
    | none =>
      rw [acquire_new st idx hfind]
      have hnotmem := (poolFind_eq_none _ _).mp hfind
      dsimp only [PoolInv]
      refine ⟨?_, ?_, ?_, hclosed, ?_⟩
      · intro p hp
        rw [List.mem_append] at hp
        rcases hp with hp | hp
        · obtain ⟨hrc, s, hs, hlt, hnc⟩ := hent p hp
          exact ⟨hrc, s, hs, by omega, hnc⟩
        · simp only [List.mem_singleton] at hp
          subst hp
          refine ⟨by norm_num, st.nextSession, rfl, by omega, ?_⟩
          intro hmem
          exact absurd (hbound _ hmem) (by omega)
      · rw [List.map_append]
        simp only [List.map_cons, List.map_nil]
        rw [List.nodup_append]
        refine ⟨hkeys, List.nodup_singleton _, ?_⟩
        intro x hx hx'
        simp only [List.mem_singleton] at hx'
        subst hx'
        exact hnotmem hx
      · rw [List.filterMap_append]
        simp only [List.filterMap_cons, List.filterMap_nil]
        rw [List.nodup_append]
        refine ⟨hsess, List.nodup_singleton _, ?_⟩
        intro x hx hx'
        simp only [List.mem_singleton] at hx'
        subst hx'
        rw [List.mem_filterMap] at hx
        obtain ⟨p, hp, hps⟩ := hx
        obtain ⟨_, s, hs, hlt, _⟩ := hent p hp
        rw [hs] at hps
        injection hps with hps
        omega
      · intro s hs
        exact lt_trans (hbound s hs) (by omega)
    | some e0 =>
      obtain ⟨hrc0, s0, hs00, hlt0, hnc0⟩ := hent (sessionKeyForProxy idx, e0)
        (poolFind_mem _ _ _ hfind)
      have hrc : 1 ≤ e0.refCount := hrc0
      have hs0 : e0.session = some s0 := hs00
      rw [acquire_found st idx e0 s0 hfind hs0 hnc0]
      obtain ⟨l1, l2, hsplit, h1, h2, hset, hfilter⟩ :=
        pool_decomp st.pool _ e0 hkeys hfind
      rw [hset]
      have hkeys2 :
          ((l1 ++ (sessionKeyForProxy idx,
            (⟨e0.refCount + 1, some s0⟩ : SharedHTTPSession)) :: l2).map Prod.fst) =
            st.pool.map Prod.fst := by
        rw [hsplit]
        simp [List.map_append]
      have hsess2 :
          ((l1 ++ (sessionKeyForProxy idx,
            (⟨e0.refCount + 1, some s0⟩ : SharedHTTPSession)) :: l2).filterMap
              (fun p => p.2.session)) = st.pool.filterMap (fun p => p.2.session) := by
        rw [hsplit]
        simp [List.filterMap_append, List.filterMap_cons, hs0]
      dsimp only [PoolInv]
      refine ⟨?_, ?_, ?_, hclosed, hbound⟩
      · intro p hp
        rw [List.mem_append, List.mem_cons] at hp
        rcases hp with hp | hp | hp
        · exact hent p (by rw [hsplit]; exact List.mem_append_left _ hp)
        · subst hp
          refine ⟨?_, s0, rfl, hlt0, hnc0⟩
          show 1 ≤ e0.refCount + 1
          omega
        · exact hent p
            (by rw [hsplit]; exact List.mem_append_right _ (List.mem_cons_of_mem _ hp))
      · rw [hkeys2]; exact hkeys
      · rw [hsess2]; exact hsess
  | release k =>
    show PoolInv (release_proxy_session st k)
    cases hfind : poolFind st.pool k with
    | none =>
      rw [release_unknown st k hfind]
      exact ⟨hent, hkeys, hsess, hclosed, hbound⟩
    | some e0 =>
      obtain ⟨hrc0, s0, hs00, hlt0, hnc0⟩ := hent (k, e0) (poolFind_mem _ _ _ hfind)
      have hrc1 : 1 ≤ e0.refCount := hrc0
      have hs0 : e0.session = some s0 := hs00
      obtain ⟨l1, l2, hsplit, h1, h2, hset, hfilter⟩ := pool_decomp st.pool k e0 hkeys hfind
      have hfm : st.pool.filterMap (fun p => p.2.session) =
          l1.filterMap (fun p => p.2.session) ++ s0 :: l2.filterMap (fun p => p.2.session) := by
        rw [hsplit]
        simp [List.filterMap_append, List.filterMap_cons, hs0]
      have hfk : st.pool.map Prod.fst = l1.map Prod.fst ++ k :: l2.map Prod.fst := by
        rw [hsplit]
        simp [List.map_append]
      by_cases hone : e0.refCount = 1
      · rw [release_to_zero st k e0 hfind hone, hfilter, hs0]
        have hsess' := hsess
        rw [hfm, List.nodup_middle, List.nodup_cons] at hsess'
        dsimp only [PoolInv]
        refine ⟨?_, ?_, ?_, ?_, ?_⟩
        · intro p hp
          have hpmem : p ∈ st.pool := by
            rw [hsplit]
            rw [List.mem_append] at hp
            rcases hp with hp | hp
            · exact List.mem_append_left _ hp
            · exact List.mem_append_right _ (List.mem_cons_of_mem _ hp)
          obtain ⟨hrc, s, hs, hlt, hnc⟩ := hent p hpmem
          refine ⟨hrc, s, hs, hlt, ?_⟩
          rw [List.mem_append, List.mem_singleton]
          rintro (hmem | rfl)
          · exact hnc hmem
          · apply hsess'.1
            rw [List.mem_append] at hp ⊢
            rcases hp with hp | hp
            · exact Or.inl (List.mem_filterMap.mpr ⟨p, hp, hs⟩)
            · exact Or.inr (List.mem_filterMap.mpr ⟨p, hp, hs⟩)
        · have hkeys' := hkeys
          rw [hfk, List.nodup_middle, List.nodup_cons] at hkeys'
          rw [List.map_append]
          exact hkeys'.2
        · rw [List.filterMap_append]
          exact hsess'.2
        · rw [List.nodup_append]
          refine ⟨hclosed, List.nodup_singleton _, ?_⟩
          intro x hx hx'
          simp only [List.mem_singleton] at hx'
          subst hx'
          exact hnc0 hx
        · intro s hs
          rw [List.mem_append, List.mem_singleton] at hs
          rcases hs with hs | rfl
          · exact hbound s hs
          · exact hlt0
      · have hgt : 1 < e0.refCount := by omega
        rw [release_decrement st k e0 hfind hgt, hset]
        have hkeys2 : ((l1 ++ (k, (⟨e0.refCount - 1, e0.session⟩ : SharedHTTPSession)) :: l2).map
            Prod.fst) = st.pool.map Prod.fst := by
          rw [hsplit]
          simp [List.map_append]
        have hsess2 : ((l1 ++ (k,
            (⟨e0.refCount - 1, e0.session⟩ : SharedHTTPSession)) :: l2).filterMap
              (fun p => p.2.session)) = st.pool.filterMap (fun p => p.2.session) := by
          rw [hsplit]
          simp [List.filterMap_append, List.filterMap_cons]
        dsimp only [PoolInv]
        refine ⟨?_, ?_, ?_, hclosed, hbound⟩
        · intro p hp
          rw [List.mem_append, List.mem_cons] at hp
          rcases hp with hp | hp | hp
          · exact hent p (by rw [hsplit]; exact List.mem_append_left _ hp)
          · subst hp
            refine ⟨?_, s0, hs0, hlt0, hnc0⟩
            show 1 ≤ e0.refCount - 1
            omega
          · exact hent p
              (by rw [hsplit]; exact List.mem_append_right _ (List.mem_cons_of_mem _ hp))
        · rw [hkeys2]; exact hkeys
        · rw [hsess2]; exact hsess

theorem poolRun_inv (ops : List PoolOp) : PoolInv (poolRun ops) := by
  have hgen : ∀ st, PoolInv st → PoolInv (ops.foldl poolStep st) := by
    induction ops with
    | nil => intro st h; exact h
    | cons op t ih =>
      intro st h
      exact ih _ (poolStep_inv st op h)
  refine hgen poolInit ⟨?_, ?_, ?_, ?_, ?_⟩ <;> simp [poolInit]

theorem poolFind_filter_none (pool : List (Str × SharedHTTPSession)) (k : Str) :
    poolFind (pool.filter (fun p => decide (p.1 ≠ k))) k = none := by
  rw [poolFind_eq_none]
  intro hmem
  rw [List.mem_map] at hmem
  obtain ⟨e, he, hek⟩ := hmem
  rw [List.mem_filter] at he
  have hne := he.2
  simp only [decide_eq_true_eq] at hne
  exact hne hek

/-- Claim C4 (confirmed): for every sequence of acquire/release operations, every
pool entry's reference count is non-negative (indeed ≥ 1); no session id ever
appears twice in the close log (each session is closed at most once); a
release on an unknown route — the only way a route can have count zero — is a
no-op; the release that takes an entry's count from 1 to 0 closes exactly that
entry's session (not previously closed) and removes the entry; a release on a
count above 1 closes nothing; and an acquire on a route with no entry creates
a fresh entry whose session is the brand-new id, never one that was closed
before. -/
theorem claim4_pool (ops : List PoolOp) :
    (∀ p ∈ (poolRun ops).pool, 0 ≤ p.2.refCount) ∧
    (poolRun ops).closedSessions.Nodup ∧
    (∀ k, poolFind (poolRun ops).pool k = none →
      release_proxy_session (poolRun ops) k = poolRun ops) ∧
    (∀ k e, poolFind (poolRun ops).pool k = some e → e.refCount = 1 →
      ∃ s, e.session = some s ∧ s ∉ (poolRun ops).closedSessions ∧
        (release_proxy_session (poolRun ops) k).closedSessions =
          (poolRun ops).closedSessions ++ [s] ∧
        poolFind (release_proxy_session (poolRun ops) k).pool k = none) ∧
    (∀ k e, poolFind (poolRun ops).pool k = some e → 1 < e.refCount →
      (release_proxy_session (poolRun ops) k).closedSessions =
        (poolRun ops).closedSessions) ∧
    (∀ idx, poolFind (poolRun ops).pool (sessionKeyForProxy idx) = none →
      poolFind (acquire_proxy_session (poolRun ops) idx).1.pool (sessionKeyForProxy idx) =
          some ⟨1, some (poolRun ops).nextSession⟩ ∧
        (poolRun ops).nextSession ∉ (poolRun ops).closedSessions) := by
  obtain ⟨hent, hkeys, hsess, hclosed, hbound⟩ := poolRun_inv ops
  refine ⟨?_, hclosed, ?_, ?_, ?_, ?_⟩
  · intro p hp
    have h1 := (hent p hp).1
    omega
  · intro k hfind
    exact release_unknown _ k hfind
  · intro k e hfind hrc
    obtain ⟨hrc0, s0, hs00, hlt0, hnc0⟩ := hent (k, e) (poolFind_mem _ _ _ hfind)
    have hs0 : e.session = some s0 := hs00
    refine ⟨s0, hs0, hnc0, ?_, ?_⟩
    · rw [release_to_zero _ _ _ hfind hrc, hs0]
    · rw [release_to_zero _ _ _ hfind hrc]
      exact poolFind_filter_none _ k
  · intro k e hfind hgt
    rw [release_decrement _ _ _ hfind hgt]
  · intro idx hfind
    constructor
    · rw [acquire_new _ _ hfind]
      exact poolFind_append_last _ _ _ hfind
    · intro hmem
      exact absurd (hbound _ hmem) (lt_irrefl _)

/-- Claim C4 witness: on the empty pool a release of an unknown route is a
no-op; a fresh acquire creates entry `⟨1, session 0⟩`; and releasing that
single-reference entry closes exactly session 0. -/
theorem claim4_witness :
    (poolFind (poolRun []).pool ['x'] = none ∧
      release_proxy_session (poolRun []) ['x'] = poolRun []) ∧
    (poolFind (poolRun []).pool (sessionKeyForProxy 0) = none ∧
      poolFind (acquire_proxy_session (poolRun []) 0).1.pool (sessionKeyForProxy 0) =
        some ⟨1, some (poolRun []).nextSession⟩) ∧
    (poolFind (poolRun [PoolOp.acquire 0]).pool (sessionKeyForProxy 0) =
        some ⟨1, some 0⟩ ∧
      (release_proxy_session (poolRun [PoolOp.acquire 0])
          (sessionKeyForProxy 0)).closedSessions = [0]) := by
  have hrun : poolRun [PoolOp.acquire 0] =
      ⟨[(sessionKeyForProxy 0, ⟨1, some 0⟩)], 1, []⟩ := by
    show (acquire_proxy_session poolInit 0).1 = _
    rw [acquire_new poolInit 0 rfl]
    rfl
  have hfind1 : poolFind (poolRun [PoolOp.acquire 0]).pool (sessionKeyForProxy 0) =
      some ⟨1, some 0⟩ := by
    rw [hrun]
    show poolFind [(sessionKeyForProxy 0, ⟨1, some 0⟩)] (sessionKeyForProxy 0) = _
    rw [poolFind, if_pos rfl]
  refine ⟨⟨rfl, (claim4_pool []).2.2.1 ['x'] rfl⟩,
    ⟨rfl, ((claim4_pool []).2.2.2.2.2 0 rfl).1⟩, hfind1, ?_⟩
  obtain ⟨s, hs, _, hcl, _⟩ :=
    (claim4_pool [PoolOp.acquire 0]).2.2.2.1 (sessionKeyForProxy 0) ⟨1, some 0⟩ hfind1 rfl
  injection hs with hs
  subst hs
  rw [hcl, hrun]
  rfl
